import Mathlib

/-!
Verification of the simple-task-manager core (server/project/project.go,
server/task/task.go, server/task/task_store_pg.go and the auth module)
against its natural-language specification.

The Go code is shallowly embedded: the persisted Postgres state becomes an
explicit `DB` value, each service function becomes a pure Lean function
threading the `DB`, and every error return site is tagged with the error
class of the specification's taxonomy (`Validation`, `NotAuthorized`,
`NotFound`, `Conflict`, `Internal`).  The `permission` package and the
project-store implementations are not part of the given sources (only their
callers and interface declarations are), so those are modelled from the
specification; every such definition is marked in its doc comment.
-/

namespace STM

/-- Error taxonomy from the specification (§7). The Go sources return plain
`error` values; each return site is tagged with the class the specification
assigns to it. -/
inductive Err where
  | NotFound
  | NotAuthorized
  | Validation
  | Conflict
  | Internal
  deriving DecidableEq, Repr

/-- `task.Task` (server/task/task.go). Go `int` fields are modelled as `Int`
(the checks `newPoints < 0` etc. need signed values; no arithmetic in the
embedded code can overflow 64 bits on the inputs we consider). -/
structure Task where
  id : String
  processPoints : Int
  maxProcessPoints : Int
  geometry : String
  assignedUser : String
  deriving DecidableEq, Repr

/-- `project.Project` (server/project/project.go). -/
structure Project where
  id : String
  name : String
  taskIDs : List String
  users : List String
  owner : String
  description : String
  needsAssignment : Bool
  deriving DecidableEq, Repr

/-- A row of the `tasks` table (server/task/task_store_pg.go): a task plus
the `project_id` column linking it to its owning project. -/
structure TaskRow where
  projectId : String
  task : Task
  deriving DecidableEq, Repr

/-- The persisted state: the `projects` and `tasks` tables. -/
structure DB where
  projects : List Project
  tasks : List TaskRow
  deriving DecidableEq, Repr

/-! ## Store layer -/

/-- `projectStore.getProject(id)`: look the project up by id
(spec §6: `getProject(id) → Project|NotFound`). -/
def getProjectStore (db : DB) (id : String) : Option Project :=
  db.projects.find? (fun p => p.id == id)

/-- `SELECT ... FROM tasks WHERE id = $1` (storePg.getTask,
server/task/task_store_pg.go). -/
def findTaskRow (db : DB) (taskId : String) : Option TaskRow :=
  db.tasks.find? (fun r => r.task.id == taskId)

/-- `storePg.getTask`: the task behind the first matching row, or a
"there is no next row" error (tagged `NotFound`). -/
def storeGetTask (db : DB) (taskId : String) : Option Task :=
  (findTaskRow db taskId).map (fun r => r.task)

/-- An `UPDATE tasks SET ... WHERE id = taskId` row update: every row whose
id matches is rewritten by `f`. -/
def updateTasks (db : DB) (taskId : String) (f : Task → Task) : DB :=
  { db with tasks := db.tasks.map (fun q =>
      if q.task.id == taskId then { q with task := f q.task } else q) }

/-- `UPDATE tasks SET assigned_user=$1 WHERE id=$2 RETURNING ...`
(storePg.assignUser). Returns the updated task and the updated state; when
no row matches, `execQuery` yields the "Task does not exist" error. -/
def storeAssignUser (db : DB) (taskId userId : String) : Option (Task × DB) :=
  match findTaskRow db taskId with
  | none => none
  | some r =>
    some ({ r.task with assignedUser := userId },
      updateTasks db taskId (fun t => { t with assignedUser := userId }))

/-- `UPDATE tasks SET assigned_user='' WHERE id=$1 RETURNING ...`
(storePg.unassignUser). -/
def storeUnassignUser (db : DB) (taskId : String) : Option (Task × DB) :=
  match findTaskRow db taskId with
  | none => none
  | some r =>
    some ({ r.task with assignedUser := "" },
      updateTasks db taskId (fun t => { t with assignedUser := "" }))

/-- `UPDATE tasks SET process_points=$1 WHERE id=$2 RETURNING ...`
(storePg.setProcessPoints). -/
def storeSetProcessPoints (db : DB) (taskId : String) (newPoints : Int) : Option (Task × DB) :=
  match findTaskRow db taskId with
  | none => none
  | some r =>
    some ({ r.task with processPoints := newPoints },
      updateTasks db taskId (fun t => { t with processPoints := newPoints }))

/-- Modelled from the spec: the project-store implementations (storePg /
storeLocal of the project package) are not under src/, only the `store`
interface is. Spec §6: `removeUser(id, user) → Project` removes the user
from the project's `users` set and returns the updated project. -/
def storeRemoveUser (db : DB) (id userToRemove : String) : Option (Project × DB) :=
  match getProjectStore db id with
  | none => none
  | some p =>
    let p2 := { p with users := p.users.filter (fun u => !(u == userToRemove)) }
    some (p2, { db with projects := db.projects.map (fun q => if q.id == id then p2 else q) })

/-- Modelled from the spec: spec §6 `addUser(id, user) → Project` persists
the addition of the user to the project's `users` set. -/
def storeAddUser (db : DB) (userToAdd id : String) : Option (Project × DB) :=
  match getProjectStore db id with
  | none => none
  | some p =>
    let p2 := { p with users := p.users ++ [userToAdd] }
    some (p2, { db with projects := db.projects.map (fun q => if q.id == id then p2 else q) })

/-- Modelled from the spec: spec §3 says the project id is assigned at
creation by the store; any generator works for the claims, so the next
numeric id is used. -/
def freshProjectId (db : DB) : String :=
  toString db.projects.length

/-- Modelled from the spec: spec §6 `addProject(draft, owner) → Project`
persists the draft under a freshly assigned id. -/
def storeAddProject (db : DB) (draft : Project) : Project × DB :=
  let p := { draft with id := freshProjectId db }
  (p, { db with projects := db.projects ++ [p] })

/-- Modelled from the spec: the store's `delete(id)` used by
`DeleteProject`. Spec §4.2: "Deletes all child Tasks first, then the
Project" — the rows of the `tasks` table bound to the project go first,
then the project row. -/
def storeDeleteProject (db : DB) (id : String) : DB :=
  let dbTasksDeleted := { db with tasks := db.tasks.filter (fun r => !(r.projectId == id)) }
  { dbTasksDeleted with projects := dbTasksDeleted.projects.filter (fun p => !(p.id == id)) }

/-- `getProjectByTask` resolved through the `tasks` table's `project_id`
column: the owning project of a task. -/
def taskProject (db : DB) (taskId : String) : Option Project :=
  (findTaskRow db taskId).bind (fun r => getProjectStore db r.projectId)

/-! ## Permission service

The `permission` package is referenced by server/task/task.go and by the
architecture diagram but its source is not among the given files, so its
operations are modelled from the specification (§4.1). -/

/-- Modelled from the spec: `VerifyMembershipProject(projectId, user)`
succeeds iff `user ∈ project.users`, fails with `NotAuthorized` otherwise
and with `NotFound` when the project does not exist (spec §4.1). -/
def VerifyMembershipProject (db : DB) (projectId user : String) : Except Err Unit :=
  match getProjectStore db projectId with
  | none => .error .NotFound
  | some p => if p.users.contains user then .ok () else .error .NotAuthorized

/-- Modelled from the spec: `VerifyMembershipTask(taskId, user)` resolves
the task's owning project, then delegates to the membership check
(spec §4.1). -/
def VerifyMembershipTask (db : DB) (taskId user : String) : Except Err Unit :=
  match taskProject db taskId with
  | none => .error .NotFound
  | some p => if p.users.contains user then .ok () else .error .NotAuthorized

/-- Modelled from the spec: `VerifyAssignment(taskId, user)` succeeds iff
`task.assignedUser == user` and an assignee is present; otherwise
`NotAuthorized`, and `NotFound` when the task does not exist (spec §4.1). -/
def VerifyAssignment (db : DB) (taskId user : String) : Except Err Unit :=
  match storeGetTask db taskId with
  | none => .error .NotFound
  | some t =>
    if !(t.assignedUser == "") && t.assignedUser == user then .ok () else .error .NotAuthorized

/-- Modelled from the spec: `AssignmentRequired(taskId)` (called
`AssignmentInTaskNeeded` by the task service) returns the owning project's
`needsAssignment` flag (spec §4.1). -/
def AssignmentInTaskNeeded (db : DB) (taskId : String) : Except Err Bool :=
  match taskProject db taskId with
  | none => .error .NotFound
  | some p => .ok p.needsAssignment

/-! ## Go `strings.TrimSpace`

`AssignUser` guards its conflict branch with
`strings.TrimSpace(task.AssignedUser) != ""`; the Go function trims the
characters for which `unicode.IsSpace` holds from both ends. -/

/-- The white-space set of Go's `unicode.IsSpace`: `\t`, `\n`, vertical tab,
form feed, `\r`, space, NEL, NBSP, and the Unicode space separators. -/
def goIsSpace (ch : Char) : Bool :=
  ch == Char.ofNat 0x09 || ch == Char.ofNat 0x0A || ch == Char.ofNat 0x0B ||
  ch == Char.ofNat 0x0C || ch == Char.ofNat 0x0D || ch == Char.ofNat 0x20 ||
  ch == Char.ofNat 0x85 || ch == Char.ofNat 0xA0 ||
  ch == Char.ofNat 0x1680 || (0x2000 ≤ ch.toNat && ch.toNat ≤ 0x200A) ||
  ch == Char.ofNat 0x2028 || ch == Char.ofNat 0x2029 || ch == Char.ofNat 0x202F ||
  ch == Char.ofNat 0x205F || ch == Char.ofNat 0x3000

/-- `strings.TrimSpace` on the character list of a string. -/
def trimSpace (s : List Char) : List Char :=
  ((s.dropWhile goIsSpace).reverse.dropWhile goIsSpace).reverse

/-! ## Task service (server/task/task.go) -/

/-- `TaskService.AssignUser(taskId, userId)`: load the task, fail with
`Conflict` when a (non-whitespace) user is already assigned, otherwise
persist the assignment. -/
def AssignUser (db : DB) (taskId userId : String) : Except Err Task × DB :=
  match storeGetTask db taskId with
  | none => (.error .NotFound, db)
  | some t =>
    if !(trimSpace t.assignedUser.data).isEmpty then (.error .Conflict, db)
    else
      match storeAssignUser db taskId userId with
      | none => (.error .NotFound, db)
      | some (t2, db2) => (.ok t2, db2)

/-- `TaskService.UnassignUser(taskId, requestingUserId)`: requires
`VerifyAssignment`, then clears the assignment. -/
def UnassignUser (db : DB) (taskId requestingUserId : String) : Except Err Task × DB :=
  match VerifyAssignment db taskId requestingUserId with
  | .error e => (.error e, db)
  | .ok _ =>
    match storeUnassignUser db taskId with
    | none => (.error .NotFound, db)
    | some (t2, db2) => (.ok t2, db2)

/-- `TaskService.SetProcessPoints(taskId, newPoints, requestingUserId)`:
permission first (assignment when the owning project needs assignment,
membership otherwise), then the range check
`newPoints < 0 || task.MaxProcessPoints < newPoints` (`Validation`),
then the update. -/
def SetProcessPoints (db : DB) (taskId : String) (newPoints : Int)
    (requestingUserId : String) : Except Err Task × DB :=
  match AssignmentInTaskNeeded db taskId with
  | .error e => (.error e, db)
  | .ok needsAssignment =>
    match (if needsAssignment then VerifyAssignment db taskId requestingUserId
           else VerifyMembershipTask db taskId requestingUserId) with
    | .error e => (.error e, db)
    | .ok _ =>
      match storeGetTask db taskId with
      | none => (.error .NotFound, db)
      | some t =>
        if newPoints < 0 ∨ t.maxProcessPoints < newPoints then (.error .Validation, db)
        else
          match storeSetProcessPoints db taskId newPoints with
          | none => (.error .NotFound, db)
          | some (t2, db2) => (.ok t2, db2)

/-- The per-draft validation loop of `TaskService.AddTasks`: process-point
ranges checked in the source, the GeoJSON polygon-feature check performed by
the external go.geojson library abstracted as the parameter `geoOk`. -/
def validTaskDraft (geoOk : String → Bool) (t : Task) : Bool :=
  !(t.processPoints < 0 || t.maxProcessPoints < 1 || t.maxProcessPoints < t.processPoints)
    && geoOk t.geometry

/-- The ids of the `tasks` table are assigned by the database sequence; any
generator works for the claims. -/
def freshTaskId (db : DB) : String :=
  toString db.tasks.length

/-- `storePg.addTasks`: insert the drafts one by one; each insert persists
the draft's fields (including `assigned_user`) under a fresh id
(server/task/task_store_pg.go, addTask). -/
def storeAddTasks (db : DB) (ts : List Task) (projectId : String) : DB :=
  match ts with
  | [] => db
  | t :: rest =>
    storeAddTasks
      { db with tasks := db.tasks ++ [⟨projectId, { t with id := freshTaskId db }⟩] }
      rest projectId

/-- `TaskService.AddTasks(newTasks, projectId)`: validate every draft
(failing with `Validation` on the first violation), then insert the batch. -/
def AddTasks (geoOk : String → Bool) (db : DB) (newTasks : List Task)
    (projectId : String) : Except Err Unit × DB :=
  if newTasks.all (validTaskDraft geoOk) then (.ok (), storeAddTasks db newTasks projectId)
  else (.error .Validation, db)

/-! ## Project service (server/project/project.go) -/

/-- The Go accumulator loop
`usersContainOwner = usersContainOwner || (u == project.Owner)` of
`AddProject`. -/
def usersContainOwner (users : List String) (owner : String) : Bool :=
  users.foldl (fun acc u => acc || (u == owner)) false

/-- `maxDescriptionLength` (server/project/project.go). -/
def maxDescriptionLength : Nat := 10000

/-- `project.AddProject(project, user)`: the chain of validation checks of
the source (id empty, owner set, owner among users, name set, at least one
task id, description within the length limit — Go's `len` counts UTF-8
bytes), then persistence through the store. -/
def AddProject (db : DB) (draft : Project) (user : String) : Except Err Project × DB :=
  if !(draft.id == "") then (.error .Validation, db)
  else if draft.owner == "" then (.error .Validation, db)
  else if !(usersContainOwner draft.users draft.owner) then (.error .Validation, db)
  else if draft.name == "" then (.error .Validation, db)
  else if draft.taskIDs.length == 0 then (.error .Validation, db)
  else if draft.description.utf8ByteSize > maxDescriptionLength then (.error .Validation, db)
  else
    let (p, db2) := storeAddProject db draft
    (.ok p, db2)

/-- `project.GetProject(id, potentialMember)`: the membership verification
of the source is commented out (a `TODO remove use permission service`
block), so the function returns the stored project to any caller. -/
def GetProject (db : DB) (id potentialMember : String) : Except Err Project :=
  match getProjectStore db id with
  | none => .error .NotFound
  | some p => .ok p

/-- `project.AddUser(user, id, potentialOwner)`: only the owner may invite;
an already-present user yields the "User already added" error (`Conflict`
in the spec's taxonomy). -/
def AddUser (db : DB) (user id potentialOwner : String) : Except Err Project × DB :=
  match getProjectStore db id with
  | none => (.error .NotFound, db)
  | some p =>
    if !(p.owner == potentialOwner) then (.error .NotAuthorized, db)
    else if p.users.contains user then (.error .Conflict, db)
    else
      match storeAddUser db user id with
      | none => (.error .NotFound, db)
      | some (p2, db2) => (.ok p2, db2)

/-- `project.LeaveProject(id, potentialMember)`: the owner may not leave;
the membership verification of the source is commented out; then the store
removes the user. -/
def LeaveProject (db : DB) (id potentialMember : String) : Except Err Project × DB :=
  match getProjectStore db id with
  | none => (.error .NotFound, db)
  | some p =>
    if p.owner == potentialMember then (.error .NotAuthorized, db)
    else
      match storeRemoveUser db id potentialMember with
      | none => (.error .NotFound, db)
      | some (p2, db2) => (.ok p2, db2)

/-- `project.RemoveUser(id, requestingUser, userToRemove)`: the only active
check of the source is "when a user tries to remove a different user, only
the owner is allowed to do that"; the membership verification is commented
out (a `TODO` block), and no check prevents removing the owner. -/
def RemoveUser (db : DB) (id requestingUser userToRemove : String) : Except Err Project × DB :=
  match getProjectStore db id with
  | none => (.error .NotFound, db)
  | some p =>
    if !(requestingUser == userToRemove) && !(p.owner == requestingUser) then
      (.error .NotAuthorized, db)
    else
      match storeRemoveUser db id userToRemove with
      | none => (.error .NotFound, db)
      | some (p2, db2) => (.ok p2, db2)

/-- `project.DeleteProject(id, potentialOwner)`: only the owner may delete;
the store's delete removes the project's tasks and the project itself. -/
def DeleteProject (db : DB) (id potentialOwner : String) : Except Err Unit × DB :=
  match getProjectStore db id with
  | none => (.error .NotFound, db)
  | some p =>
    if !(p.owner == potentialOwner) then (.error .NotAuthorized, db)
    else (.ok (), storeDeleteProject db id)

/-! ## Auth module (the `auth` package)

`createSecret` composes SHA-256 hashing, AES encryption under a key derived
from a fixed pass phrase, and base64 encoding — all provided by Go's crypto
libraries, abstracted here as the fields of `Crypto`. The process-wide
nonce (`tokenSecretNonce`, fixed at `InitAuth`) enters as the `nonce`
argument (already hex-formatted, as in the `%x` of the source). -/

/-- The external crypto primitives used by `createSecret`. -/
structure Crypto where
  sha256 : String → String
  aesEncrypt : String → String → String
  base64 : String → String

/-- Bearer-token payload `auth.Token`. -/
structure Token where
  validUntil : Int
  user : String
  secret : String
  deriving DecidableEq, Repr

/-- `auth.createSecret(user, validTime)`: hash the nonce ++ user ++ expiry
string, encrypt the hash under the key hashed from the fixed pass phrase,
hash again, and base64-encode. -/
def createSecret (c : Crypto) (nonce : String) (user : String) (validTime : Int) : String :=
  let key := c.sha256 "some very secret key"
  let secretBaseString := nonce ++ user ++ toString validTime
  let secretHashedBytes := c.sha256 secretBaseString
  let secretEncryptedBytes := c.aesEncrypt key secretHashedBytes
  c.base64 (c.sha256 secretEncryptedBytes)

/-- `auth.VerifyRequest` after base64/JSON decoding (the codecs are Go
standard-library externals; a token that fails to decode is rejected before
this point): re-derive the secret for the token's user and expiry, reject on
mismatch ("Secret not valid") or expiry ("Token expired"), and return the
token with the secret blanked. -/
def verifyToken (c : Crypto) (nonce : String) (token : Token) (now : Int) : Except Err Token :=
  let targetSecret := createSecret c nonce token.user token.validUntil
  if !(token.secret == targetSecret) then .error .NotAuthorized
  else if token.validUntil < now then .error .NotAuthorized
  else .ok { token with secret := "" }

/-- The permission condition of `SetProcessPoints` as the specification
states it: assignment when the owning project's `needsAssignment` flag is
set, membership otherwise. -/
def setPointsAuthorized (p : Project) (t : Task) (user : String) : Prop :=
  if p.needsAssignment then t.assignedUser ≠ "" ∧ t.assignedUser = user else user ∈ p.users

instance (p : Project) (t : Task) (user : String) : Decidable (setPointsAuthorized p t user) := by
  unfold setPointsAuthorized
  infer_instance

/-! ## Supporting lemmas -/

theorem usersContainOwner_iff (users : List String) (owner : String) :
    usersContainOwner users owner = true ↔ owner ∈ users := by
  have h : ∀ (l : List String) (b : Bool),
      (l.foldl (fun acc u => acc || (u == owner)) b = true) ↔ (b = true ∨ owner ∈ l) := by
    intro l
    induction l with
    | nil => intro b; simp [List.foldl]
    | cons u rest ih =>
      intro b
      simp only [List.foldl_cons, ih, Bool.or_eq_true, beq_iff_eq, List.mem_cons]
      constructor
      · rintro ((hb | hu) | hr)
        · exact Or.inl hb
        · exact Or.inr (Or.inl hu.symm)
        · exact Or.inr (Or.inr hr)
      · rintro (hb | (hu | hr))
        · exact Or.inl (Or.inl hb)
        · exact Or.inl (Or.inr hu.symm)
        · exact Or.inr hr
  simpa [usersContainOwner] using h users false

theorem trimSpace_eq_nil_iff (s : List Char) :
    trimSpace s = [] ↔ ∀ c ∈ s, goIsSpace c = true := by
  unfold trimSpace
  rw [List.reverse_eq_nil_iff, List.dropWhile_eq_nil_iff]
  simp only [List.mem_reverse]
  constructor
  · intro h c hc
    rw [← List.takeWhile_append_dropWhile goIsSpace s, List.mem_append] at hc
    rcases hc with hc | hc
    · exact List.mem_takeWhile_imp hc
    · exact h c hc
  · intro h c hc
    apply h
    rw [← List.takeWhile_append_dropWhile goIsSpace s, List.mem_append]
    exact Or.inr hc

instance {ε α : Type} [DecidableEq ε] [DecidableEq α] : DecidableEq (Except ε α) := fun a b =>
  match a, b with
  | .ok x, .ok y =>
    if h : x = y then isTrue (by rw [h]) else isFalse (fun hc => h (by injection hc))
  | .error e, .error e2 =>
    if h : e = e2 then isTrue (by rw [h]) else isFalse (fun hc => h (by injection hc))
  | .ok _, .error _ => isFalse (fun hc => Except.noConfusion hc)
  | .error _, .ok _ => isFalse (fun hc => Except.noConfusion hc)

theorem findTaskRow_updateTasks (db : DB) (taskId : String) (f : Task → Task)
    (hid : ∀ t, (f t).id = t.id) (row : TaskRow)
    (hrow : findTaskRow db taskId = some row) :
    findTaskRow (updateTasks db taskId f) taskId = some { row with task := f row.task } := by
  have hpf : (fun q : TaskRow => q.task.id == taskId) ∘
      (fun q : TaskRow => if q.task.id == taskId then { q with task := f q.task } else q)
      = (fun q : TaskRow => q.task.id == taskId) := by
    funext q
    by_cases hq : (q.task.id == taskId) = true
    · simp only [Function.comp_apply, if_pos hq]
      simp [hid, hq]
    · simp only [Function.comp_apply, if_neg hq]
  have hq := List.find?_some hrow
  unfold findTaskRow at hrow ⊢
  unfold updateTasks
  rw [List.find?_map, hpf, hrow]
  simp only [Option.map_some']
  rw [if_pos hq]

theorem find?_filter_not_none {α : Type} (l : List α) (p : α → Bool) :
    (l.filter (fun x => !(p x))).find? p = none := by
  rw [List.find?_eq_none]
  intro x hx h
  rw [List.mem_filter] at hx
  rw [h] at hx
  simp at hx

/-! ## Sample states for the concrete theorems -/

/-- A project owned by user A with members A and B. -/
def pAB : Project :=
  { id := "p1", name := "n", taskIDs := ["t1"], users := ["A", "B"], owner := "A",
    description := "", needsAssignment := false }

def dbAB : DB := { projects := [pAB], tasks := [] }

/-! ## Claims -/

/-- Claim C1: the specification asserts that after every successful
mutation the owner of a project is still a member of its `users` set and
that removing the owner is never permitted. The code violates this:
`RemoveUser("p1", "A", "A")`, the owner removing themselves, passes the only
active check of `RemoveUser` (requester equals target) and strips the owner
from the `users` set — afterwards the project still has owner A but A is no
longer a member. -/
theorem c1_owner_invariant_broken :
    (RemoveUser dbAB "p1" "A" "A").1.isOk = true ∧
    (RemoveUser dbAB "p1" "A" "A").2.projects.length = 1 ∧
    ∀ q ∈ (RemoveUser dbAB "p1" "A" "A").2.projects, q.owner = "A" ∧ "A" ∉ q.users := by
  decide

/-- A project owned by A with members A and B; user X is not a member. -/
def pC2 : Project :=
  { id := "p2", name := "n", taskIDs := ["t1"], users := ["A", "B"], owner := "A",
    description := "", needsAssignment := false }

def dbC2 : DB := { projects := [pC2], tasks := [] }

/-- Claim C2: the specification requires `RemoveUser` to demand that both
users are current members and that the target is not the owner, returning
`NotAuthorized` otherwise. The code only checks that the requester equals
the target or is the owner (the membership verification is a commented-out
TODO block), so removing the non-member X as the owner A succeeds instead of
failing with `NotAuthorized`. -/
theorem c2_removeUser_checks_missing :
    ("X" ∈ pC2.users → False) ∧
    (RemoveUser dbC2 "p2" "A" "X").1.isOk = true ∧
    (RemoveUser dbC2 "p2" "A" "X").1 ≠ .error Err.NotAuthorized := by
  decide

/-- A project whose only member is its owner A; user X is not a member. -/
def pC3 : Project :=
  { id := "p3", name := "n", taskIDs := ["t1"], users := ["A"], owner := "A",
    description := "", needsAssignment := false }

def dbC3 : DB := { projects := [pC3], tasks := [] }

/-- Claim C3: the specification requires `GetProject` to verify membership
and fail with `NotAuthorized` for non-members. In the source the membership
verification is commented out (a `TODO remove use permission service`
block), so the non-member X receives the full project. -/
theorem c3_getProject_no_membership_check :
    ("X" ∈ pC3.users → False) ∧ GetProject dbC3 "p3" "X" = .ok pC3 := by
  decide

theorem storeAddTasks_mem (drafts : List Task) (db : DB) (pid : String)
    (hdr : ∀ t ∈ drafts, t.assignedUser = "") :
    ∀ r ∈ (storeAddTasks db drafts pid).tasks, r ∈ db.tasks ∨ r.task.assignedUser = "" := by
  induction drafts generalizing db with
  | nil => intro r hr; exact Or.inl hr
  | cons t rest ih =>
    intro r hr
    unfold storeAddTasks at hr
    have hrest : ∀ x ∈ rest, x.assignedUser = "" := fun x hx => hdr x (List.mem_cons_of_mem t hx)
    rcases ih _ hrest r hr with hmem | hu
    · simp only [List.mem_append, List.mem_singleton] at hmem
      rcases hmem with hmem | hmem
      · exact Or.inl hmem
      · subst hmem
        exact Or.inr (hdr t (List.mem_cons_self t rest))
    · exact Or.inr hu

/-- Claim C4: the task-assignment state machine. Tasks created through
`AddTasks` from drafts without an assignee start unassigned; `AssignUser`
moves an unassigned task to `Assigned(u)` and fails with `Conflict` —
leaving the assignment untouched — on a task already assigned to a real
(non-whitespace) user; `UnassignUser` moves `Assigned(u)` back to unassigned
when the requester is u, and fails with `NotAuthorized` — leaving the
assignment untouched — for any other requester or on an unassigned task. -/
theorem c4_assignment_state_machine :
    (∀ (geoOk : String → Bool) (db : DB) (drafts : List Task) (pid : String),
      (∀ t ∈ drafts, t.assignedUser = "") →
      ∀ r ∈ (AddTasks geoOk db drafts pid).2.tasks, r ∈ db.tasks ∨ r.task.assignedUser = "") ∧
    (∀ (db : DB) (taskId u : String) (row : TaskRow),
      findTaskRow db taskId = some row →
      row.task.assignedUser = "" →
      (AssignUser db taskId u).1 = .ok { row.task with assignedUser := u } ∧
      storeGetTask (AssignUser db taskId u).2 taskId = some { row.task with assignedUser := u }) ∧
    (∀ (db : DB) (taskId u v : String) (row : TaskRow),
      findTaskRow db taskId = some row →
      row.task.assignedUser = u →
      ¬ trimSpace u.data = [] →
      AssignUser db taskId v = (.error .Conflict, db)) ∧
    (∀ (db : DB) (taskId u v : String) (row : TaskRow),
      findTaskRow db taskId = some row →
      row.task.assignedUser = u → u ≠ "" → v ≠ u →
      UnassignUser db taskId v = (.error .NotAuthorized, db)) ∧
    (∀ (db : DB) (taskId u : String) (row : TaskRow),
      findTaskRow db taskId = some row →
      row.task.assignedUser = u → u ≠ "" →
      (UnassignUser db taskId u).1 = .ok { row.task with assignedUser := "" } ∧
      storeGetTask (UnassignUser db taskId u).2 taskId = some { row.task with assignedUser := "" }) ∧
    (∀ (db : DB) (taskId v : String) (row : TaskRow),
      findTaskRow db taskId = some row →
      row.task.assignedUser = "" →
      UnassignUser db taskId v = (.error .NotAuthorized, db)) := by
  refine ⟨?creation, ?assign, ?conflict, ?unauth, ?unassign, ?ununassigned⟩
  case creation =>
    intro geoOk db drafts pid hdr r hr
    unfold AddTasks at hr
    by_cases hall : drafts.all (validTaskDraft geoOk) = true
    · rw [if_pos hall] at hr
      exact storeAddTasks_mem drafts db pid hdr r hr
    · rw [if_neg hall] at hr
      exact Or.inl hr
  case assign =>
    intro db taskId u row hrow h0
    have hget : storeGetTask db taskId = some row.task := by
      simp [storeGetTask, hrow]
    have hdata : row.task.assignedUser.data = [] := by rw [h0]
    have hupd := findTaskRow_updateTasks db taskId (fun t => { t with assignedUser := u })
      (fun t => rfl) row hrow
    constructor
    · simp [AssignUser, hget, hdata, trimSpace, storeAssignUser, hrow]
    · simp [AssignUser, hget, hdata, trimSpace, storeAssignUser, hrow, storeGetTask, hupd]
  case conflict =>
    intro db taskId u v row hrow hu hne
    have hget : storeGetTask db taskId = some row.task := by
      simp [storeGetTask, hrow]
    have hne2 : (trimSpace row.task.assignedUser.data).isEmpty = false := by
      rw [hu]
      simp [List.isEmpty_iff, hne]
    simp [AssignUser, hget, hne2]
  case unauth =>
    intro db taskId u v row hrow hu hne hvu
    have hget : storeGetTask db taskId = some row.task := by
      simp [storeGetTask, hrow]
    have hva : VerifyAssignment db taskId v = .error .NotAuthorized := by
      simp only [VerifyAssignment, hget]
      rw [hu]
      have h1 : (u == "") = false := by simp [hne]
      have h2 : (u == v) = false := by
        simp only [beq_eq_false_iff_ne, ne_eq]
        intro h
        exact hvu h.symm
      simp [h1, h2]
    simp [UnassignUser, hva]
  case unassign =>
    intro db taskId u row hrow hu hne
    have hget : storeGetTask db taskId = some row.task := by
      simp [storeGetTask, hrow]
    have hva : VerifyAssignment db taskId u = .ok () := by
      simp only [VerifyAssignment, hget]
      rw [hu]
      have h1 : (u == "") = false := by simp [hne]
      simp [h1]
    have hupd := findTaskRow_updateTasks db taskId (fun t => { t with assignedUser := "" })
      (fun t => rfl) row hrow
    constructor
    · simp [UnassignUser, hva, storeUnassignUser, hrow]
    · simp [UnassignUser, hva, storeUnassignUser, hrow, storeGetTask, hupd]
  case ununassigned =>
    intro db taskId v row hrow h0
    have hget : storeGetTask db taskId = some row.task := by
      simp [storeGetTask, hrow]
    have hva : VerifyAssignment db taskId v = .error .NotAuthorized := by
      simp only [VerifyAssignment, hget]
      rw [h0]
      simp
    simp [UnassignUser, hva]

/-- An unassigned task in project p1. -/
def tUn : Task :=
  { id := "t1", processPoints := 0, maxProcessPoints := 10, geometry := "g", assignedUser := "" }

def rowUn : TaskRow := { projectId := "p1", task := tUn }

def dbUn : DB := { projects := [pAB], tasks := [rowUn] }

/-- The same task assigned to user B. -/
def tAsB : Task :=
  { id := "t1", processPoints := 0, maxProcessPoints := 10, geometry := "g", assignedUser := "B" }

def rowAsB : TaskRow := { projectId := "p1", task := tAsB }

def dbAsB : DB := { projects := [pAB], tasks := [rowAsB] }

/-- Witness for C4 at concrete states: assignment of an unassigned task
succeeds, double assignment yields `Conflict` without change, unassignment
by a non-assignee yields `NotAuthorized` without change, unassignment by the
assignee succeeds, and unassigning an unassigned task yields
`NotAuthorized`. -/
theorem taskProject_eq (db : DB) (taskId : String) (row : TaskRow) (p : Project)
    (hrow : findTaskRow db taskId = some row)
    (hp : getProjectStore db row.projectId = some p) :
    taskProject db taskId = some p := by
  simp [taskProject, hrow, hp]

theorem spp_notAuthorized (db : DB) (taskId : String) (newPoints : Int) (user : String)
    (row : TaskRow) (p : Project)
    (hrow : findTaskRow db taskId = some row)
    (hp : getProjectStore db row.projectId = some p)
    (hna : ¬ setPointsAuthorized p row.task user) :
    SetProcessPoints db taskId newPoints user = (.error .NotAuthorized, db) := by
  have htp := taskProject_eq db taskId row p hrow hp
  have hand : AssignmentInTaskNeeded db taskId = .ok p.needsAssignment := by
    simp [AssignmentInTaskNeeded, htp]
  have hget : storeGetTask db taskId = some row.task := by
    simp [storeGetTask, hrow]
  cases hflag : p.needsAssignment with
  | true =>
    rw [setPointsAuthorized, hflag] at hna
    rw [if_pos rfl] at hna
    have hva : VerifyAssignment db taskId user = .error .NotAuthorized := by
      simp only [VerifyAssignment, hget]
      by_cases h1 : row.task.assignedUser = ""
      · simp [h1]
      · have h2 : ¬ row.task.assignedUser = user := fun h => hna ⟨h1, h⟩
        simp [h1, h2]
    simp [SetProcessPoints, hand, hflag, hva]
  | false =>
    rw [setPointsAuthorized, hflag] at hna
    rw [if_neg Bool.false_ne_true] at hna
    have hc : p.users.contains user = false := by
      cases hcc : p.users.contains user
      · rfl
      · exact absurd (List.elem_iff.mp hcc) hna
    have hvm : VerifyMembershipTask db taskId user = .error .NotAuthorized := by
      simp [VerifyMembershipTask, htp, hc, hna]
    simp [SetProcessPoints, hand, hflag, hvm]

theorem spp_permission_ok (db : DB) (taskId : String) (user : String)
    (row : TaskRow) (p : Project)
    (hrow : findTaskRow db taskId = some row)
    (hp : getProjectStore db row.projectId = some p)
    (ha : setPointsAuthorized p row.task user) :
    (if p.needsAssignment then VerifyAssignment db taskId user
     else VerifyMembershipTask db taskId user) = .ok () := by
  have htp := taskProject_eq db taskId row p hrow hp
  have hget : storeGetTask db taskId = some row.task := by
    simp [storeGetTask, hrow]
  cases hflag : p.needsAssignment with
  | true =>
    rw [setPointsAuthorized, hflag] at ha
    rw [if_pos rfl] at ha
    have h1 : (row.task.assignedUser == "") = false := by simp [ha.1]
    have h2 : (row.task.assignedUser == user) = true := by simp [ha.2]
    simp [VerifyAssignment, hget, h1, h2]
  | false =>
    rw [setPointsAuthorized, hflag] at ha
    rw [if_neg Bool.false_ne_true] at ha
    have hc : p.users.contains user = true := List.elem_iff.mpr ha
    simp [VerifyMembershipTask, htp, hc, ha]

theorem spp_validation (db : DB) (taskId : String) (newPoints : Int) (user : String)
    (row : TaskRow) (p : Project)
    (hrow : findTaskRow db taskId = some row)
    (hp : getProjectStore db row.projectId = some p)
    (ha : setPointsAuthorized p row.task user)
    (hr : newPoints < 0 ∨ row.task.maxProcessPoints < newPoints) :
    SetProcessPoints db taskId newPoints user = (.error .Validation, db) := by
  have htp := taskProject_eq db taskId row p hrow hp
  have hand : AssignmentInTaskNeeded db taskId = .ok p.needsAssignment := by
    simp [AssignmentInTaskNeeded, htp]
  have hget : storeGetTask db taskId = some row.task := by
    simp [storeGetTask, hrow]
  have hperm := spp_permission_ok db taskId user row p hrow hp ha
  simp [SetProcessPoints, hand, hperm, hget, hr]

theorem spp_success (db : DB) (taskId : String) (newPoints : Int) (user : String)
    (row : TaskRow) (p : Project)
    (hrow : findTaskRow db taskId = some row)
    (hp : getProjectStore db row.projectId = some p)
    (ha : setPointsAuthorized p row.task user)
    (hr : ¬(newPoints < 0 ∨ row.task.maxProcessPoints < newPoints)) :
    (SetProcessPoints db taskId newPoints user).1 = .ok { row.task with processPoints := newPoints } ∧
    storeGetTask (SetProcessPoints db taskId newPoints user).2 taskId =
      some { row.task with processPoints := newPoints } := by
  have htp := taskProject_eq db taskId row p hrow hp
  have hand : AssignmentInTaskNeeded db taskId = .ok p.needsAssignment := by
    simp [AssignmentInTaskNeeded, htp]
  have hget : storeGetTask db taskId = some row.task := by
    simp [storeGetTask, hrow]
  have hperm := spp_permission_ok db taskId user row p hrow hp ha
  have hupd := findTaskRow_updateTasks db taskId (fun t => { t with processPoints := newPoints })
    (fun t => rfl) row hrow
  constructor
  · simp [SetProcessPoints, hand, hperm, hget, hr, storeSetProcessPoints, hrow]
  · simp [SetProcessPoints, hand, hperm, hget, hr, storeSetProcessPoints, hrow,
      storeGetTask, hupd]

/-- Claim C5: permission contract and range contract of `SetProcessPoints`:
with the task present and its owning project resolved, an unauthorized
caller (not the assignee when the project needs assignment, not a member
otherwise) gets `NotAuthorized` with the state untouched; an authorized
caller gets `Validation` exactly when the new value is below zero or above
`maxProcessPoints`, and otherwise the new value — which may be lower than
the old one — is persisted verbatim. -/
theorem c5_setProcessPoints_spec (db : DB) (taskId : String) (newPoints : Int)
    (user : String) (row : TaskRow) (p : Project)
    (hrow : findTaskRow db taskId = some row)
    (hp : getProjectStore db row.projectId = some p) :
    (¬ setPointsAuthorized p row.task user →
      SetProcessPoints db taskId newPoints user = (.error .NotAuthorized, db)) ∧
    (setPointsAuthorized p row.task user →
      (((SetProcessPoints db taskId newPoints user).1 = .error .Validation) ↔
        (newPoints < 0 ∨ row.task.maxProcessPoints < newPoints)) ∧
      (¬(newPoints < 0 ∨ row.task.maxProcessPoints < newPoints) →
        (SetProcessPoints db taskId newPoints user).1 =
          .ok { row.task with processPoints := newPoints } ∧
        storeGetTask (SetProcessPoints db taskId newPoints user).2 taskId =
          some { row.task with processPoints := newPoints })) := by
  refine ⟨fun hna => spp_notAuthorized db taskId newPoints user row p hrow hp hna, fun ha => ⟨?_, ?_⟩⟩
  · constructor
    · intro hv
      by_contra hr
      have := (spp_success db taskId newPoints user row p hrow hp ha hr).1
      rw [hv] at this
      exact Except.noConfusion this
    · intro hr
      have := spp_validation db taskId newPoints user row p hrow hp ha hr
      rw [this]
  · intro hr
    exact spp_success db taskId newPoints user row p hrow hp ha hr

/-- A project that requires assignment, with members A, B and C, and its
task t2 assigned to B. -/
def pNA : Project :=
  { id := "pn", name := "n", taskIDs := ["t2"], users := ["A", "B", "C"], owner := "A",
    description := "", needsAssignment := true }

def rowNA : TaskRow :=
  { projectId := "pn",
    task := { id := "t2", processPoints := 0, maxProcessPoints := 10, geometry := "g",
              assignedUser := "B" } }

def dbNA : DB := { projects := [pNA], tasks := [rowNA] }

/-- Witness for C5: in the needs-assignment project, the assigned user B
persists an in-range value, and an out-of-range value is `Validation` for
B. -/
theorem c5_setProcessPoints_spec_witness :
    (SetProcessPoints dbNA "t2" 5 "B").1 = .ok { rowNA.task with processPoints := 5 } ∧
    ((SetProcessPoints dbNA "t2" 50 "B").1 = .error Err.Validation ↔
      ((50 : Int) < 0 ∨ rowNA.task.maxProcessPoints < 50)) :=
  ⟨(((c5_setProcessPoints_spec dbNA "t2" 5 "B" rowNA pNA rfl rfl).2 (by decide)).2
      (by decide)).1,
   ((c5_setProcessPoints_spec dbNA "t2" 50 "B" rowNA pNA rfl rfl).2 (by decide)).1⟩

/-- Claim C9: in `SetProcessPoints` the authorization check runs before the
range validation: an unauthorized caller receives `NotAuthorized` — never
`Validation` — for every `newPoints`, including out-of-range ones, and the
state is unchanged. -/
theorem c9_auth_precedes_validation (db : DB) (taskId : String) (newPoints : Int)
    (user : String) (row : TaskRow) (p : Project)
    (hrow : findTaskRow db taskId = some row)
    (hp : getProjectStore db row.projectId = some p)
    (hna : ¬ setPointsAuthorized p row.task user) :
    SetProcessPoints db taskId newPoints user = (.error .NotAuthorized, db) :=
  spp_notAuthorized db taskId newPoints user row p hrow hp hna

/-- Witness for C9: member C is not assigned to t2 of the needs-assignment
project and asks for the out-of-range value 50; the answer is
`NotAuthorized`, not `Validation`, and the state is untouched. -/
theorem c9_auth_precedes_validation_witness :
    ((50 : Int) < 0 ∨ rowNA.task.maxProcessPoints < 50) ∧
    SetProcessPoints dbNA "t2" 50 "C" = (.error Err.NotAuthorized, dbNA) :=
  ⟨by decide, c9_auth_precedes_validation dbNA "t2" 50 "C" rowNA pNA rfl rfl (by decide)⟩

/-- Claim C6: `DeleteProject` requires ownership: for a requester who is not
the owner it fails with `NotAuthorized` and the state — the project and all
its tasks — is unchanged; for the owner it succeeds, after which the
project is gone and no task bound to it remains. -/
theorem c6_deleteProject_spec (db : DB) (id user : String) (p : Project)
    (hp : getProjectStore db id = some p) :
    (user ≠ p.owner → DeleteProject db id user = (.error .NotAuthorized, db)) ∧
    (user = p.owner →
      DeleteProject db id user = (.ok (), storeDeleteProject db id) ∧
      getProjectStore (DeleteProject db id user).2 id = none ∧
      ∀ r ∈ (DeleteProject db id user).2.tasks, r.projectId ≠ id) := by
  constructor
  · intro hne
    have hb : (p.owner == user) = false := by
      simp only [beq_eq_false_iff_ne, ne_eq]
      intro h
      exact hne h.symm
    simp [DeleteProject, hp, hb]
  · intro heq
    have hb : (p.owner == user) = true := by simp [heq]
    have hdel : DeleteProject db id user = (.ok (), storeDeleteProject db id) := by
      simp [DeleteProject, hp, hb]
    refine ⟨hdel, ?_, ?_⟩
    · rw [hdel]
      unfold getProjectStore storeDeleteProject
      exact find?_filter_not_none db.projects (fun q => q.id == id)
    · intro r hr
      rw [hdel] at hr
      unfold storeDeleteProject at hr
      rw [List.mem_filter] at hr
      intro hpid
      rw [hpid] at hr
      simp at hr

/-- Witness for C6: B (a member, not the owner) cannot delete project p1
and nothing changes; the owner A deletes it, after which the project and
its task are gone. -/
theorem c6_deleteProject_spec_witness :
    DeleteProject dbUn "p1" "B" = (.error Err.NotAuthorized, dbUn) ∧
    getProjectStore (DeleteProject dbUn "p1" "A").2 "p1" = none ∧
    ∀ r ∈ (DeleteProject dbUn "p1" "A").2.tasks, r.projectId ≠ "p1" :=
  ⟨(c6_deleteProject_spec dbUn "p1" "B" pAB rfl).1 (by decide),
   ((c6_deleteProject_spec dbUn "p1" "A" pAB rfl).2 rfl).2.1,
   ((c6_deleteProject_spec dbUn "p1" "A" pAB rfl).2 rfl).2.2⟩

/-- The `Validation` preconditions of `AddProject` as the source checks
them: id already set, owner unset, owner not among the users, empty name,
no task ids, or an over-long description (UTF-8 byte length). -/
def addProjectInvalid (draft : Project) : Prop :=
  draft.id ≠ "" ∨ draft.owner = "" ∨ draft.owner ∉ draft.users ∨ draft.name = "" ∨
  draft.taskIDs = [] ∨ maxDescriptionLength < draft.description.utf8ByteSize

instance (draft : Project) : Decidable (addProjectInvalid draft) := by
  unfold addProjectInvalid
  infer_instance

theorem addProject_invalid_eq (db : DB) (draft : Project) (user : String)
    (h : addProjectInvalid draft) :
    AddProject db draft user = (.error .Validation, db) := by
  unfold AddProject
  split
  · rfl
  · split
    · rfl
    · split
      · rfl
      · split
        · rfl
        · split
          · rfl
          · split
            · rfl
            · rename_i h1 h2 h3 h4 h5 h6
              exfalso
              simp at h1 h2 h3 h4 h5
              rcases h with hh | hh | hh | hh | hh | hh
              · exact hh h1
              · rw [hh] at h2
                simp at h2
              · exact hh ((usersContainOwner_iff draft.users draft.owner).mp h3)
              · rw [hh] at h4
                simp at h4
              · rw [hh] at h5
                simp at h5
              · exact h6 hh

theorem addProject_valid_eq (db : DB) (draft : Project) (user : String)
    (h : ¬ addProjectInvalid draft) :
    AddProject db draft user =
      (.ok { draft with id := freshProjectId db },
       { db with projects := db.projects ++ [{ draft with id := freshProjectId db }] }) := by
  unfold addProjectInvalid at h
  push_neg at h
  obtain ⟨h1, h2, h3, h4, h5, h6⟩ := h
  have b1 : (draft.id == "") = true := by simp [h1]
  have b2 : (draft.owner == "") = false := by simp [h2]
  have b3 : usersContainOwner draft.users draft.owner = true :=
    (usersContainOwner_iff draft.users draft.owner).mpr h3
  have b4 : (draft.name == "") = false := by simp [h4]
  have b5 : (draft.taskIDs.length == 0) = false := by
    simp only [beq_eq_false_iff_ne, ne_eq, List.length_eq_zero]
    exact h5
  simp [AddProject, b1, b2, b3, b4, b5, h6, storeAddProject]

/-- A project already holding task id t1, and a draft — valid in every
other respect — that tries to reuse t1. -/
def pC7 : Project :=
  { id := "p7", name := "n", taskIDs := ["t1"], users := ["A"], owner := "A",
    description := "", needsAssignment := false }

def dbC7 : DB := { projects := [pC7], tasks := [] }

def draftC7 : Project :=
  { id := "", name := "N", taskIDs := ["t1"], users := ["C"], owner := "C",
    description := "", needsAssignment := false }

/-- Counterexample to C7: the claim says `AddProject` fails with `Conflict`
when one of the draft's task ids already belongs to another project; in the
source no such check exists (no `areTasksUsed` call), so a draft reusing the
bound task id t1 is persisted successfully. -/
theorem c7_conflict_check_counterexample :
    (∃ q ∈ dbC7.projects, "t1" ∈ q.taskIDs) ∧ "t1" ∈ draftC7.taskIDs ∧
    (AddProject dbC7 draftC7 "C").1 ≠ .error Err.Conflict ∧
    (AddProject dbC7 draftC7 "C").1.isOk = true := by
  decide

/-- Claim C7 as amended: `AddProject` fails with `Validation` — persisting
nothing — exactly when one of the listed preconditions is violated (id
non-empty, owner unset, owner not among users, empty name, empty task list,
description over 10,000 bytes), and otherwise persists the project; the
task-id uniqueness check (`Conflict`) is not performed. -/
theorem c7_addProject_validation_amended (db : DB) (draft : Project) (user : String) :
    ((AddProject db draft user).1 = .error Err.Validation ↔ addProjectInvalid draft) ∧
    (addProjectInvalid draft → (AddProject db draft user).2 = db) ∧
    (¬ addProjectInvalid draft →
      AddProject db draft user =
        (.ok { draft with id := freshProjectId db },
         { db with projects := db.projects ++ [{ draft with id := freshProjectId db }] })) := by
  refine ⟨⟨?_, ?_⟩, ?_, addProject_valid_eq db draft user⟩
  · intro hv
    by_contra hval
    rw [addProject_valid_eq db draft user hval] at hv
    exact Except.noConfusion hv
  · intro hinv
    rw [addProject_invalid_eq db draft user hinv]
  · intro hinv
    rw [addProject_invalid_eq db draft user hinv]

/-- Witness for the amended C7: a draft with a set id is rejected with
`Validation` and persists nothing, and a fully valid draft is persisted. -/
theorem c7_addProject_validation_amended_witness :
    ((AddProject dbC7 pC7 "A").1 = .error Err.Validation ↔ addProjectInvalid pC7) ∧
    ((AddProject dbC7 pC7 "A").2 = dbC7) ∧
    AddProject dbC7 draftC7 "C" =
      (.ok { draftC7 with id := freshProjectId dbC7 },
       { dbC7 with projects := dbC7.projects ++ [{ draftC7 with id := freshProjectId dbC7 }] }) :=
  ⟨(c7_addProject_validation_amended dbC7 pC7 "A").1,
   (c7_addProject_validation_amended dbC7 pC7 "A").2.1 (by decide),
   (c7_addProject_validation_amended dbC7 draftC7 "C").2.2 (by decide)⟩

/-- Claim C8: the bearer-token verifier. `createSecret` is a pure function
of the process-wide nonce and the (user, validUntil) pair — two calls with
equal pairs yield equal secrets — and `VerifyRequest` accepts a decoded
token exactly when its secret equals the re-derived secret for its own user
and expiry fields and the expiry is not in the past. -/
theorem c8_token_verifier (c : Crypto) (nonce : String) :
    (∀ (u : String) (t : Int) (u2 : String) (t2 : Int),
      u = u2 → t = t2 → createSecret c nonce u t = createSecret c nonce u2 t2) ∧
    (∀ (token : Token) (now : Int),
      (verifyToken c nonce token now).isOk = true ↔
        (token.secret = createSecret c nonce token.user token.validUntil ∧
         ¬ token.validUntil < now)) := by
  constructor
  · intro u t u2 t2 hu ht
    rw [hu, ht]
  · intro token now
    unfold verifyToken
    by_cases hs : token.secret = createSecret c nonce token.user token.validUntil
    · have hb : (token.secret == createSecret c nonce token.user token.validUntil) = true := by
        simp [hs]
      by_cases hv : token.validUntil < now
      · simp [hb, hv, Except.isOk, Except.toBool]
      · simp [hb, hv, hs, Except.isOk, Except.toBool]
    · have hb : (token.secret == createSecret c nonce token.user token.validUntil) = false := by
        simp [hs]
      simp [hb, hs, Except.isOk, Except.toBool]

/-- The identity instantiation of the crypto primitives, and a token carrying
the secret derived for ("u", 5). -/
def cryptoId : Crypto :=
  { sha256 := fun s => s, aesEncrypt := fun _ s => s, base64 := fun s => s }

def tokC8 : Token :=
  { validUntil := 5, user := "u", secret := createSecret cryptoId "N" "u" 5 }

/-- Witness for C8: the re-derived secret matches itself, and the token with
the correctly derived secret is accepted at a time before its expiry. -/
theorem c8_token_verifier_witness :
    createSecret cryptoId "N" "u" 5 = createSecret cryptoId "N" "u" 5 ∧
    (verifyToken cryptoId "N" tokC8 4).isOk = true :=
  ⟨(c8_token_verifier cryptoId "N").1 "u" 5 "u" 5 rfl rfl,
   ((c8_token_verifier cryptoId "N").2 tokC8 4).mpr ⟨rfl, by decide⟩⟩

/-- Claim C10: `AssignUser` treats a whitespace-only `assignedUser` as
unassigned: when every character of the current `assignedUser` is
whitespace (including the empty string) the assignment succeeds and sets
the user; the `Conflict` branch is taken exactly when the current value
contains a non-whitespace character. -/
theorem c10_assignUser_whitespace (db : DB) (taskId u : String) (row : TaskRow)
    (hrow : findTaskRow db taskId = some row) :
    ((∀ ch ∈ row.task.assignedUser.data, goIsSpace ch = true) →
      (AssignUser db taskId u).1 = .ok { row.task with assignedUser := u } ∧
      storeGetTask (AssignUser db taskId u).2 taskId =
        some { row.task with assignedUser := u }) ∧
    ((AssignUser db taskId u).1 = .error Err.Conflict ↔
      ∃ ch ∈ row.task.assignedUser.data, goIsSpace ch = false) := by
  have hget : storeGetTask db taskId = some row.task := by
    simp [storeGetTask, hrow]
  have hupd := findTaskRow_updateTasks db taskId (fun t => { t with assignedUser := u })
    (fun t => rfl) row hrow
  constructor
  · intro hws
    have hnil : trimSpace row.task.assignedUser.data = [] :=
      (trimSpace_eq_nil_iff _).mpr hws
    constructor
    · simp [AssignUser, hget, hnil, storeAssignUser, hrow]
    · simp [AssignUser, hget, hnil, storeAssignUser, hrow, storeGetTask, hupd]
  · constructor
    · intro hconf
      by_contra hex
      push_neg at hex
      have hws : ∀ ch ∈ row.task.assignedUser.data, goIsSpace ch = true := by
        intro ch hch
        have := hex ch hch
        simpa using this
      have hnil : trimSpace row.task.assignedUser.data = [] :=
        (trimSpace_eq_nil_iff _).mpr hws
      have hok : (AssignUser db taskId u).1 = .ok { row.task with assignedUser := u } := by
        simp [AssignUser, hget, hnil, storeAssignUser, hrow]
      rw [hok] at hconf
      exact Except.noConfusion hconf
    · rintro ⟨ch, hch, hns⟩
      have hne : ¬ trimSpace row.task.assignedUser.data = [] := by
        intro hnil
        have := (trimSpace_eq_nil_iff _).mp hnil ch hch
        rw [hns] at this
        exact Bool.noConfusion this
      have hb : (trimSpace row.task.assignedUser.data).isEmpty = false := by
        simp [List.isEmpty_iff, hne]
      simp [AssignUser, hget, hb]

/-- A task whose `assignedUser` is a single space character. -/
def tWs : Task :=
  { id := "t3", processPoints := 0, maxProcessPoints := 10, geometry := "g",
    assignedUser := " " }

def rowWs : TaskRow := { projectId := "p1", task := tWs }

def dbWs : DB := { projects := [pAB], tasks := [rowWs] }

/-- Witness for C10: the whitespace-only assignee counts as unassigned, so
assigning B succeeds. -/
theorem c10_assignUser_whitespace_witness :
    (∀ ch ∈ rowWs.task.assignedUser.data, goIsSpace ch = true) ∧
    (AssignUser dbWs "t3" "B").1 = .ok { rowWs.task with assignedUser := "B" } :=
  ⟨by decide, ((c10_assignUser_whitespace dbWs "t3" "B" rowWs rfl).1 (by decide)).1⟩

theorem c4_assignment_state_machine_witness :
    (∀ r ∈ (AddTasks (fun _ => true) dbAB [tUn] "p1").2.tasks,
        r ∈ dbAB.tasks ∨ r.task.assignedUser = "") ∧
    (AssignUser dbUn "t1" "B").1 = .ok { rowUn.task with assignedUser := "B" } ∧
    AssignUser dbAsB "t1" "C" = (.error .Conflict, dbAsB) ∧
    UnassignUser dbAsB "t1" "C" = (.error .NotAuthorized, dbAsB) ∧
    (UnassignUser dbAsB "t1" "B").1 = .ok { rowAsB.task with assignedUser := "" } ∧
    UnassignUser dbUn "t1" "C" = (.error .NotAuthorized, dbUn) :=
  ⟨c4_assignment_state_machine.1 (fun _ => true) dbAB [tUn] "p1" (by decide),
   (c4_assignment_state_machine.2.1 dbUn "t1" "B" rowUn rfl rfl).1,
   c4_assignment_state_machine.2.2.1 dbAsB "t1" "B" "C" rowAsB rfl rfl (by decide),
   c4_assignment_state_machine.2.2.2.1 dbAsB "t1" "B" "C" rowAsB rfl rfl (by decide) (by decide),
   (c4_assignment_state_machine.2.2.2.2.1 dbAsB "t1" "B" rowAsB rfl rfl (by decide)).1,
   c4_assignment_state_machine.2.2.2.2.2 dbUn "t1" "C" rowUn rfl rfl⟩

end STM
